import Mathlib

/-!
Verification development for the Warframe Public Export parser
(`src/warframe_public_export_parser/__main__.py`).

The Python source is shallowly embedded below.  File systems are modelled as
association lists from file names to file contents (one list per directory),
network transports as explicit outcome values, and exceptions as `Except`
results.  Python string operations (`str.split` on a one-character separator,
`str.strip`, `str.startswith`, `str.endswith`, `str.rsplit("_", 1)`,
`os.path.splitext`, `os.path.basename`, `os.path.dirname`, glob patterns of
the shape `pre*suf`) are re-implemented over `List Char` by structural
recursion so that every definition evaluates inside the kernel.
-/

namespace WarframePublicExport

/-! ## String helpers mirroring the Python standard library -/

/-- Python `str.split(sep)` for a one-character separator, on the character list of a
string.  `splitOnChar c []` is `[[]]`, matching Python `"".split(sep) == [""]`. -/
def splitOnChar (c : Char) : List Char → List (List Char)
  | [] => [[]]
  | x :: xs =>
    match splitOnChar c xs, decide (x = c) with
    | r, true => [] :: r
    | h :: t, false => (x :: h) :: t
    | [], false => [[x]]

/-- Python `s.split(c)` for a one-character separator `c`. -/
def splitS (c : Char) (s : String) : List String :=
  (splitOnChar c s.data).map fun l => ⟨l⟩

/-- Python `s.strip()`: remove leading and trailing whitespace. -/
def trimS (s : String) : String :=
  ⟨(((s.data.dropWhile Char.isWhitespace).reverse.dropWhile Char.isWhitespace).reverse)⟩

/-- Python `s.startswith(pre)`. -/
def startsWithS (s pre : String) : Bool :=
  pre.data.isPrefixOf s.data

/-- Python `s.endswith(suf)`. -/
def endsWithS (s suf : String) : Bool :=
  suf.data.isSuffixOf s.data

/-- Index of the last occurrence of `c`, if any. -/
def lastIdxOf (c : Char) : List Char → Option Nat
  | [] => none
  | x :: xs =>
    match lastIdxOf c xs, decide (x = c) with
    | some i, _ => some (i + 1)
    | none, true => some 0
    | none, false => none

/-- Python `os.path.splitext`: split off the extension at the last dot of the base
name; a base name consisting only of leading dots has no extension. -/
def splitext (s : String) : String × String :=
  let cs := s.data
  let start := match lastIdxOf '/' cs with
    | none => 0
    | some i => i + 1
  match lastIdxOf '.' cs with
  | none => (s, "")
  | some d =>
    if (decide (start ≤ d)) &&
        (List.range d).any (fun j => decide (start ≤ j) && decide (cs.getD j '.' ≠ '.')) then
      (⟨cs.take d⟩, ⟨cs.drop d⟩)
    else
      (s, "")

/-- Python `s.rsplit("_", 1)[0]`: everything before the last underscore,
or the whole string when there is none. -/
def rsplitBase (s : String) : String :=
  match lastIdxOf '_' s.data with
  | none => s
  | some i => ⟨s.data.take i⟩

/-- Python `os.path.basename` for slash-separated paths. -/
def basename (s : String) : String :=
  (splitS '/' s).getLastD ""

/-- Python `os.path.dirname` for slash-separated paths. -/
def dirname (s : String) : String :=
  let parts := splitS '/' s
  if parts.length ≤ 1 then "" else String.intercalate "/" parts.dropLast

/-- Python `s.lstrip("/")`. -/
def lstripSlash (s : String) : String :=
  ⟨s.data.dropWhile fun c => decide (c = '/')⟩

/-- Python `os.path.join a b` for the relative paths this program builds. -/
def joinPath (a b : String) : String :=
  if a = "" then b
  else if startsWithS b "/" then b
  else if endsWithS a "/" then a ++ b
  else a ++ "/" ++ b

/-- Matching a file name against the glob pattern `pre*suf` (the only pattern
shape the program uses, `{file_name}_*{file_ext}`): the name is
`pre ++ mid ++ suf` for some (possibly empty) `mid`. -/
def matchesGlob (pre suf name : String) : Bool :=
  pre.data.isPrefixOf name.data && suf.data.isSuffixOf (name.data.drop pre.data.length)

/-! ## Directory model -/

/-- The file names of a directory modelled as an association list
`fileName ↦ contents`. -/
def dirNames (folder : List (String × String)) : List String :=
  folder.map Prod.fst

/-- Writing a file into a directory: replace the contents if the name exists
(keeping its position), append it otherwise. -/
def setFile : List (String × String) → String → String → List (String × String)
  | [], n, c => [(n, c)]
  | (n₁, c₁) :: rest, n, c =>
    if n₁ = n then (n, c) :: rest else (n₁, c₁) :: setFile rest n c

/-! ## JSON model

Python floats and dict-key ordering games are out of scope; `num` carries an
integer.  A parsed Python `dict` is an `obj` whose keys are distinct. -/

inductive Json where
  | null
  | bool (b : Bool)
  | num (n : Int)
  | str (s : String)
  | arr (elems : List Json)
  | obj (fields : List (String × Json))

/-- First binding of key `k` in an object's field list (`dict` lookup;
parsed dictionaries have distinct keys). -/
def getJField (fields : List (String × Json)) (k : String) : Option Json :=
  match fields with
  | [] => none
  | (k₁, v) :: rest => if k₁ = k then some v else getJField rest k

/-- Python `d[k] = v` on a dict: replace in place, or append a new binding. -/
def setJField (fields : List (String × Json)) (k : String) (v : Json) :
    List (String × Json) :=
  match fields with
  | [] => [(k, v)]
  | (k₁, v₁) :: rest =>
    if k₁ = k then (k, v) :: rest else (k₁, v₁) :: setJField rest k v

/-- Python `d.get(k)` on a parsed JSON dict (`None` when the key is absent). -/
def jsonGet (j : Json) (k : String) : Option Json :=
  match j with
  | .obj fields => getJField fields k
  | _ => none

/-- Lookup in the `uniqueName → textureLocation` index (a Python dict with
string keys and string values). -/
def lookupIdx (idx : List (String × String)) (k : String) : Option String :=
  match idx with
  | [] => none
  | (k₁, v) :: rest => if k₁ = k then some v else lookupIdx rest k

/-! ## Index Differ: `check_and_update_export_files` (lines 67–119)

The function reads `data/{lang}/warframe_public_export_endpoints_{lang}.txt`;
if that file is missing it logs an error and returns `[]`.  Each line
`filename!hash` is checked against a directory listing: entries whose
`filename` starts with `"ExportManifest"` are checked against the `data/`
root listing filtered by the fixed prefix `"ExportManifest_"`, all others
against the `data/{lang}` listing filtered by `filename`'s base name.  An
entry is collected as stale when no listed file ends with
`_{hash}{extension}`.  A malformed line (`split("!")` not yielding exactly
two parts) raises `ValueError`, and a missing `data/{lang}` directory makes
`os.listdir` raise `FileNotFoundError`; both escape the function and are
modelled as `Except.error ()`. -/

/-- The parts of the on-disk state that `check_and_update_export_files lang`
reads. -/
structure LangFS where
  /-- `os.listdir("data")`: names (files and subdirectories) in the root
  data directory. -/
  rootFiles : List String
  /-- `os.listdir(f"data/{lang}")`, or `none` when that directory does not
  exist. -/
  langFiles : Option (List String)
  /-- The lines (as read by `readlines`) of
  `data/{lang}/warframe_public_export_endpoints_{lang}.txt`, or `none` when
  that file does not exist. -/
  endpoints : Option (List String)

/-- A `LangFS` reachable on a real file system: the endpoints file lives
inside `data/{lang}`, so it can only exist when that directory does. -/
def LangFS.WF (fs : LangFS) : Prop :=
  fs.endpoints.isSome → fs.langFiles.isSome

/-- The per-line loop of `check_and_update_export_files` (lines 87–119). -/
def check_go (root : List String) (langFiles : Option (List String)) :
    List String → Except Unit (List String)
  | [] => .ok []
  | line :: rest =>
    match splitS '!' (trimS line) with
    | [filename, newHash] =>
      let base := (splitext filename).1
      let ext := (splitext filename).2
      let staleCheck : Except Unit Bool :=
        if startsWithS filename "ExportManifest" then
          let matching := root.filter fun f => startsWithS f "ExportManifest_"
          .ok (! matching.any fun f => endsWithS f ("_" ++ newHash ++ ext))
        else
          match langFiles with
          | none => .error ()
          | some listing =>
            let matching := listing.filter fun f => startsWithS f base
            .ok (! matching.any fun f => endsWithS f ("_" ++ newHash ++ ext))
      match staleCheck with
      | .error e => .error e
      | .ok stale =>
        match check_go root langFiles rest with
        | .error e => .error e
        | .ok tail => .ok (if stale then trimS line :: tail else tail)
    | _ => .error ()

/-- The function `check_and_update_export_files` (lines 67–119). -/
def check_and_update_export_files (fs : LangFS) : Except Unit (List String) :=
  match fs.endpoints with
  | none => .ok []
  | some lines => check_go fs.rootFiles fs.langFiles lines

/-! ## Fetch Pipeline: `fetch_and_save_manifest` (lines 164–221)

The function splits `item` into `filename!hash`, deletes every file in the
target folder matching the glob `{file_name}_*{file_ext}` other than the new
target name `{file_name}_{hash}{file_ext}`, and only then performs the HTTP
fetch.  On success, `.json` payloads are decoded (`errors="ignore"`, which
cannot fail), sanitized, parsed with `json.loads` — a parse failure is
caught, logged, and leaves the directory as it stands after the deletions —
and the re-serialized text is written directly to the final target name;
non-`.json` payloads are written byte-for-byte.  Every exception, including
the `ValueError` from a malformed `item` (raised before any deletion), is
caught by the function itself, so it never raises.

The fetch/parse outcome is an explicit parameter: `success content` carries
the bytes that end up in the file (the `indent=4` dump of the parsed data
for `.json` entries, the raw payload otherwise); `jsonError` is the
`json.JSONDecodeError` path of a `.json` entry; `clientError` is the
`aiohttp.ClientError` path. -/

inductive FetchOutcome where
  | clientError
  | jsonError
  | success (content : String)

/-- The function `fetch_and_save_manifest` (lines 164–221), acting on the association list
of the target folder (`data` for `ExportManifest.json`, `data/{lang}`
otherwise). -/
def fetch_and_save_manifest (folder : List (String × String)) (item : String)
    (outcome : FetchOutcome) : List (String × String) :=
  match splitS '!' (trimS item) with
  | [filename, hashValue] =>
    let fileName := (splitext filename).1
    let ext := (splitext filename).2
    let newFilename := fileName ++ "_" ++ hashValue ++ ext
    let afterRemove := folder.filter fun p =>
      ! matchesGlob (fileName ++ "_") ext p.1 || decide (p.1 = newFilename)
    match outcome with
    | .clientError => afterRemove
    | .jsonError => afterRemove
    | .success content => setFile afterRemove newFilename content
  | _ => folder

/-! ## Asset Materializer: `download_and_save_png` (lines 261–305) and
`process_manifest_and_download_pngs` (lines 308–369)

`download_and_save_png` lists the destination directory, keeps the names
starting with `file_name.rsplit("_", 1)[0]` (the save file name up to its
last underscore), and skips the fetch and the write entirely when any of
them ends with `_{hash_value}{file_ext}`; otherwise it fetches and writes
the payload at `save_path` (an `aiohttp.ClientError` is caught and logged,
leaving the directory unchanged).

`process_manifest_and_download_pngs` iterates over
`manifest_data["Manifest"]`; the per-record field accesses
`item["uniqueName"]` and `item["textureLocation"]` raise `KeyError` when
the key is absent, `.lstrip("/")` raises `AttributeError` on a non-string,
and the two-place unpacking of `texture_location.split("!")` raises
`ValueError` unless the split has exactly two parts.  All of these are
caught by the surrounding handler, logged, and re-raised, so the whole pass
aborts; the model returns the list of `(url, save_path)` downloads the loop
schedules, or the first exception. -/

/-- The function `download_and_save_png` (lines 261–305), acting on the association list
of the destination directory; `saveName` is `os.path.basename(save_path)`
and `fetched` is the transport result (`none` = `aiohttp.ClientError`). -/
def download_and_save_png (folder : List (String × String))
    (saveName hashValue : String) (fetched : Option String) :
    List (String × String) :=
  let fileName := (splitext saveName).1
  let ext := (splitext saveName).2
  let existing := (dirNames folder).filter fun f =>
    startsWithS f (rsplitBase fileName)
  if existing.any fun f => endsWithS f ("_" ++ hashValue ++ ext) then
    folder
  else
    match fetched with
    | none => folder
    | some data => setFile folder saveName data

/-- The record loop of `process_manifest_and_download_pngs` (lines 331–356):
the `(full_url, save_path)` pairs scheduled for download, or the first
uncaught-and-re-raised exception. -/
def process_go (baseDownloadFolder : String) :
    List Json → Except String (List (String × String))
  | [] => .ok []
  | item :: rest =>
    match item with
    | .obj fields =>
      match getJField fields "uniqueName" with
      | none => .error "KeyError: uniqueName"
      | some uniqueNameVal =>
        match uniqueNameVal with
        | .str uniqueName =>
          match getJField fields "textureLocation" with
          | none => .error "KeyError: textureLocation"
          | some textureLocationVal =>
            match textureLocationVal with
            | .str rawLocation =>
              let textureLocation := lstripSlash rawLocation
              let fullUrl :=
                "http://content.warframe.com/PublicExport/" ++ textureLocation
              match splitS '!' textureLocation with
              | [imageUrl, hashValue] =>
                let fileName := (splitext (basename imageUrl)).1
                let ext := (splitext (basename imageUrl)).2
                let newFileName := fileName ++ "_" ++ hashValue ++ ext
                let folderStructure :=
                  joinPath baseDownloadFolder (dirname (lstripSlash uniqueName))
                let savePath := joinPath folderStructure newFileName
                match process_go baseDownloadFolder rest with
                | .error e => .error e
                | .ok tail => .ok ((fullUrl, savePath) :: tail)
              | _ => .error "ValueError: split"
            | _ => .error "AttributeError: lstrip"
        | _ => .error "AttributeError: lstrip"
    | _ => .error "TypeError: item is not a dict"

/-- The function `process_manifest_and_download_pngs` (lines 308–369): extract
`manifest_data["Manifest"]` and run the record loop. -/
def process_manifest_and_download_pngs (manifest : Json)
    (baseDownloadFolder : String) : Except String (List (String × String)) :=
  match manifest with
  | .obj fields =>
    match getJField fields "Manifest" with
    | none => .error "KeyError: Manifest"
    | some (.arr items) => process_go baseDownloadFolder items
    | some _ => .error "TypeError: Manifest is not a list"
  | _ => .error "TypeError: manifest is not a dict"

/-! ## Cross-Reference Linker: `update_export_files` (lines 372–451)

The manifest index is the dict
`{item["uniqueName"]: item["textureLocation"] for item in ... if both keys}`.
For every record (a dict) carrying `"uniqueName"`, the value is looked up in
that dict: a string key hits or misses normally; numbers, booleans and
`None` are hashable and simply miss; a list or dict value makes the
containment test raise `TypeError: unhashable type`, which nothing in
`update_export_files` catches.  On a hit, the record's `"imagePath"` is set
to `texture_location.split("!")[-2]` (the part before the final `!`; an
`IndexError` if the split has fewer than two parts).  Documents are either a
top-level list of records or a dict whose list values hold records; anything
else, and any non-dict record, is left unchanged. -/

/-- Python `texture_location.split("!")[-2]`. -/
def texture_path (textureLocation : String) : Except String String :=
  let parts := splitS '!' textureLocation
  if parts.length ≤ 1 then .error "IndexError"
  else .ok (parts.getD (parts.length - 2) "")

/-- The per-record update (lines 419–430 and 433–442; both branches run the
same logic).  Returns the updated record and whether `updates_made` was
incremented. -/
def update_item (idx : List (String × String)) (j : Json) :
    Except String (Json × Bool) :=
  match j with
  | .obj fields =>
    match getJField fields "uniqueName" with
    | none => .ok (j, false)
    | some (.str u) =>
      match lookupIdx idx u with
      | none => .ok (j, false)
      | some textureLocation =>
        match texture_path textureLocation with
        | .error e => .error e
        | .ok p => .ok (.obj (setJField fields "imagePath" (.str p)), true)
    | some (.arr _) => .error "TypeError: unhashable type: list"
    | some (.obj _) => .error "TypeError: unhashable type: dict"
    | some _ => .ok (j, false)
  | _ => .ok (j, false)

/-- Updating one top-level list of records; also counts the updates. -/
def update_list (idx : List (String × String)) :
    List Json → Except String (List Json × Nat)
  | [] => .ok ([], 0)
  | j :: rest =>
    match update_item idx j with
    | .error e => .error e
    | .ok (j₁, b) =>
      match update_list idx rest with
      | .error e => .error e
      | .ok (rest₁, n) => .ok (j₁ :: rest₁, n + if b then 1 else 0)

/-- Updating the values of a top-level dict: list values are traversed,
anything else is kept. -/
def update_fields (idx : List (String × String)) :
    List (String × Json) → Except String (List (String × Json) × Nat)
  | [] => .ok ([], 0)
  | (k, v) :: rest =>
    match v with
    | .arr items =>
      match update_list idx items with
      | .error e => .error e
      | .ok (items₁, n) =>
        match update_fields idx rest with
        | .error e => .error e
        | .ok (rest₁, m) => .ok ((k, .arr items₁) :: rest₁, n + m)
    | _ =>
      match update_fields idx rest with
      | .error e => .error e
      | .ok (rest₁, m) => .ok ((k, v) :: rest₁, m)

/-- The per-document body of `update_export_files` (lines 414–442): the
updated document value and the final `updates_made` count.  The document is
rewritten to disk (as the `indent=4` dump of the returned value) only when
the count is positive. -/
def update_export_data (idx : List (String × String)) (d : Json) :
    Except String (Json × Nat) :=
  match d with
  | .obj fields =>
    match update_fields idx fields with
    | .error e => .error e
    | .ok (fields₁, n) => .ok (.obj fields₁, n)
  | .arr items =>
    match update_list idx items with
    | .error e => .error e
    | .ok (items₁, n) => .ok (.arr items₁, n)
  | _ => .ok (d, 0)

/-! ## Snapshot Poller: `get_world_state_data` (lines 454–517)

For each deployment target the fetched document is sanitized and parsed;
then, *only if* `data/world_state_data_{console}.json` already exists, its
`WorldSeed` is compared with the fetched one: equal seeds skip the save,
different seeds overwrite the file.  The `if os.path.exists(file_path):`
block has no `else` branch, so when no file exists nothing is written — even
though the comment above it (lines 482–486) says "If there are no existing
files, save the file". -/

mutual

/-- Structural equality of parsed JSON values (Python `==`). -/
def jsonBeq : Json → Json → Bool
  | .null, .null => true
  | .bool a, .bool b => a == b
  | .num a, .num b => a == b
  | .str a, .str b => a == b
  | .arr a, .arr b => jsonListBeq a b
  | .obj a, .obj b => jsonFieldsBeq a b
  | _, _ => false

/-- Structural equality of JSON arrays. -/
def jsonListBeq : List Json → List Json → Bool
  | [], [] => true
  | a :: as, b :: bs => jsonBeq a b && jsonListBeq as bs
  | _, _ => false

/-- Structural equality of JSON objects (Python dict `==` is key-set plus
value equality; parsed dictionaries with equal bindings in equal order are
covered by this order-sensitive comparison, which is all the poller needs). -/
def jsonFieldsBeq : List (String × Json) → List (String × Json) → Bool
  | [], [] => true
  | (k₁, v₁) :: as, (k₂, v₂) :: bs => k₁ == k₂ && jsonBeq v₁ v₂ && jsonFieldsBeq as bs
  | _, _ => false

end

/-- Python `==` on the two `.get("WorldSeed")` results (`None == None` is
`True`). -/
def optJsonBeq : Option Json → Option Json → Bool
  | none, none => true
  | some a, some b => jsonBeq a b
  | _, _ => false

/-- One target's iteration of `get_world_state_data` (lines 467–517), from
the state of `data/world_state_data_{console}.json` (`none` = the file does
not exist, `some old` = it holds `old`) and the parsed fetched document, to
the state of that file after the iteration. -/
def get_world_state_data_step (existing : Option Json) (fetched : Json) :
    Option Json :=
  match existing with
  | none => none
  | some old =>
    if optJsonBeq (jsonGet old "WorldSeed") (jsonGet fetched "WorldSeed") then
      some old
    else
      some fetched

/-! ## Helper lemmas -/

/-- The names function `dirNames` commutes with filtering on the file name. -/
theorem dirNames_filter (folder : List (String × String)) (p : String → Bool) :
    dirNames (folder.filter fun q => p q.1) = (dirNames folder).filter p := by
  induction folder with
  | nil => rfl
  | cons q rest ih =>
    by_cases h : p q.1 = true
    · simp [dirNames, List.filter, h] at ih ⊢
      exact ih
    · simp only [Bool.not_eq_true] at h
      simp [dirNames, List.filter, h] at ih ⊢
      exact ih

/-- Membership in a directory after `setFile`. -/
theorem mem_dirNames_setFile (folder : List (String × String)) (t c n : String) :
    n ∈ dirNames (setFile folder t c) ↔ n ∈ dirNames folder ∨ n = t := by
  induction folder with
  | nil => simp [setFile, dirNames]
  | cons q rest ih =>
    by_cases h : q.1 = t
    · rcases q with ⟨n₁, c₁⟩
      simp only at h
      subst h
      simp [setFile, dirNames]
      tauto
    · rcases q with ⟨n₁, c₁⟩
      simp only at h
      simp [setFile, dirNames, h] at ih ⊢
      rw [ih]
      tauto

/-- The write operation `setFile` keeps directory listings duplicate-free. -/
theorem nodup_dirNames_setFile (folder : List (String × String)) (t c : String)
    (h : (dirNames folder).Nodup) : (dirNames (setFile folder t c)).Nodup := by
  induction folder with
  | nil => simp [setFile, dirNames]
  | cons q rest ih =>
    rcases q with ⟨n₁, c₁⟩
    simp only [dirNames, List.map_cons, List.nodup_cons] at h
    by_cases he : n₁ = t
    · subst he
      simpa [setFile, dirNames, List.nodup_cons] using h
    · simp only [setFile, he, if_false]
      simp only [dirNames, List.map_cons, List.nodup_cons]
      refine ⟨?_, ih h.2⟩
      rw [show List.map Prod.fst (setFile rest t c) = dirNames (setFile rest t c) from rfl,
        mem_dirNames_setFile]
      rintro (hm | hm)
      · exact h.1 hm
      · exact he hm

/-- A nonempty duplicate-free list all of whose members equal `a` is `[a]`. -/
theorem nodup_all_eq_singleton {α : Type} {l : List α} {a : α} (hn : l.Nodup)
    (hall : ∀ x ∈ l, x = a) (hm : a ∈ l) : l = [a] := by
  cases l with
  | nil => cases hm
  | cons x rest =>
    have hx : x = a := hall x (List.mem_cons_self x rest)
    subst hx
    cases rest with
    | nil => rfl
    | cons y rest₂ =>
      have hy : y = x := hall y (by simp)
      subst hy
      simp at hn

/-- Membership in the names of a filtered directory. -/
theorem mem_dirNames_filter (folder : List (String × String))
    (p : String × String → Bool) (n : String) :
    n ∈ dirNames (folder.filter p) ↔ ∃ q ∈ folder, p q = true ∧ q.1 = n := by
  simp only [dirNames, List.mem_map, List.mem_filter]
  constructor
  · rintro ⟨q, ⟨hq, hpq⟩, rfl⟩
    exact ⟨q, hq, hpq, rfl⟩
  · rintro ⟨q, hq, hpq, rfl⟩
    exact ⟨q, ⟨hq, hpq⟩, rfl⟩

/-- Filtering a directory keeps its listing duplicate-free. -/
theorem nodup_dirNames_filter (folder : List (String × String))
    (p : String × String → Bool) (h : (dirNames folder).Nodup) :
    (dirNames (folder.filter p)).Nodup :=
  List.Nodup.sublist ((List.filter_sublist (p := p) folder).map Prod.fst) h

/-- The new target file name `{fileName}_{hash}{ext}` matches the glob
pattern `{fileName}_*{ext}`. -/
theorem matchesGlob_target (fileName hashValue ext : String) :
    matchesGlob (fileName ++ "_") ext (fileName ++ "_" ++ hashValue ++ ext) = true := by
  unfold matchesGlob
  have hdata : (fileName ++ "_" ++ hashValue ++ ext).data =
      (fileName ++ "_").data ++ (hashValue.data ++ ext.data) := by
    simp [String.data_append, List.append_assoc]
  rw [hdata]
  apply Bool.and_eq_true_iff.mpr
  constructor
  · exact List.isPrefixOf_iff_prefix.mpr (List.prefix_append _ _)
  · rw [List.drop_left]
    exact List.isSuffixOf_iff_suffix.mpr (List.suffix_append _ _)

/-! ## Claim C10 -/

/-- C10: if the endpoints index file for a partition does not exist, the
Index Differ returns the empty list (after logging an error), so the whole
partition is skipped for the run with no entries fetched and no exception
raised. -/
theorem c10_missing_endpoints_returns_empty (fs : LangFS)
    (h : fs.endpoints = none) :
    check_and_update_export_files fs = .ok [] := by
  unfold check_and_update_export_files
  rw [h]

theorem c10_missing_endpoints_returns_empty_witness :
    check_and_update_export_files ⟨[], some [], none⟩ = .ok [] :=
  c10_missing_endpoints_returns_empty ⟨[], some [], none⟩ rfl

/-! ## Claim C2 -/

/-- C2: evaluation of the Snapshot Poller at the failing input.  When no
snapshot file is stored for a target, `get_world_state_data` performs no
write at all — the `if os.path.exists(file_path):` block has no `else`
branch — so the fetched snapshot is never persisted, contradicting the
claim's bootstrap case and the code's own comment ("If there are no
existing files, save the file"). -/
theorem c2_bootstrap_snapshot_not_persisted :
    get_world_state_data_step none (.obj [("WorldSeed", .str "17")]) = none :=
  rfl

/-! ## Claim C3 -/

/-- C3, counterexample: the claim's matching rule ("some file starts with
`baseName` and ends with `_{contentHash}{extension}`") does not govern
entries whose filename begins with `ExportManifest` — for those the code
filters the root listing by the fixed prefix `"ExportManifest_"` instead of
`baseName`.  For the entry `ExportManifest.json!H2`, the root file
`ExportManifestX_H2.json` starts with the base name `ExportManifest` and
ends with `_H2.json`, so the claim says the entry is satisfied (not stale);
the code still selects it as stale. -/
theorem c3_counterexample_manifest_prefix :
    check_and_update_export_files
        ⟨["ExportManifestX_H2.json"], some [], some ["ExportManifest.json!H2"]⟩ =
      .ok ["ExportManifest.json!H2"] ∧
    ∃ f ∈ ["ExportManifestX_H2.json"],
      startsWithS f (splitext "ExportManifest.json").1 = true ∧
      endsWithS f ("_" ++ "H2" ++ (splitext "ExportManifest.json").2) = true :=
  ⟨rfl, "ExportManifestX_H2.json", by simp, rfl, rfl⟩

/-- C3, amended: for a well-formed index entry `filename!newHash` whose
filename does not begin with `ExportManifest`, the Index Differ selects the
entry as stale if and only if no file in the partition's directory both
starts with the entry's base name and ends with `_{newHash}{extension}`;
an entry whose filename begins with `ExportManifest` is instead checked
against the root directory using the fixed prefix `"ExportManifest_"` in
place of the base name. -/
theorem c3_amended_stale_iff_no_matching_file (root listing : List String)
    (line filename newHash : String)
    (hsplit : splitS '!' (trimS line) = [filename, newHash]) :
    ∃ r, check_and_update_export_files ⟨root, some listing, some [line]⟩ = .ok r ∧
      (trimS line ∈ r ↔
        ¬ ∃ f ∈ (if startsWithS filename "ExportManifest" = true
                then root.filter fun f => startsWithS f "ExportManifest_"
                else listing.filter fun f => startsWithS f (splitext filename).1),
            endsWithS f ("_" ++ newHash ++ (splitext filename).2) = true) := by
  have hgo : check_and_update_export_files ⟨root, some listing, some [line]⟩ =
      check_go root (some listing) [line] := rfl
  rw [hgo]
  unfold check_go
  rw [hsplit]
  by_cases hm : startsWithS filename "ExportManifest" = true
  · simp only [hm, if_true, if_pos]
    by_cases hany : (root.filter fun f => startsWithS f "ExportManifest_").any
        (fun f => endsWithS f ("_" ++ newHash ++ (splitext filename).2)) = true
    · refine ⟨[], by simp [check_go, hany], ?_⟩
      simp only [List.not_mem_nil, false_iff, not_not]
      exact List.any_eq_true.mp hany
    · rw [Bool.not_eq_true] at hany
      refine ⟨[trimS line], by simp [check_go, hany], ?_⟩
      simp only [List.mem_singleton, true_iff]
      rw [← List.any_eq_true]
      simp [hany]
  · rw [Bool.not_eq_true] at hm
    simp only [hm, if_false, Bool.false_eq_true]
    by_cases hany : (listing.filter fun f => startsWithS f (splitext filename).1).any
        (fun f => endsWithS f ("_" ++ newHash ++ (splitext filename).2)) = true
    · refine ⟨[], by simp [check_go, hany], ?_⟩
      simp only [List.not_mem_nil, false_iff, not_not]
      exact List.any_eq_true.mp hany
    · rw [Bool.not_eq_true] at hany
      refine ⟨[trimS line], by simp [check_go, hany], ?_⟩
      simp only [List.mem_singleton, true_iff]
      rw [← List.any_eq_true]
      simp [hany]

theorem c3_amended_stale_iff_no_matching_file_witness :
    ∃ r, check_and_update_export_files ⟨[], some ["Foo_H1.json"], some ["Foo.json!H2"]⟩ = .ok r ∧
      (trimS "Foo.json!H2" ∈ r ↔
        ¬ ∃ f ∈ (if startsWithS "Foo.json" "ExportManifest" = true
                then List.filter (fun f => startsWithS f "ExportManifest_") []
                else ["Foo_H1.json"].filter fun f => startsWithS f (splitext "Foo.json").1),
            endsWithS f ("_" ++ "H2" ++ (splitext "Foo.json").2) = true) :=
  c3_amended_stale_iff_no_matching_file [] ["Foo_H1.json"] "Foo.json!H2" "Foo.json" "H2" rfl

/-! ## Claim C7 -/

/-- C7, counterexample: when the partition directory `data/{lang}` does not
exist, the endpoints index file stored inside it cannot exist either (this
is the well-formedness fact `LangFS.WF`), so `check_and_update_export_files`
takes its early-return branch and produces the *empty* list — not the full
entry list of the partition's index.  With a remote index consisting of the
single entry `ExportWeapons.json!H1`, the claim predicts
`.ok ["ExportWeapons.json!H1"]`; the code returns `.ok []`. -/
theorem c7_counterexample_missing_dir_returns_empty :
    LangFS.WF ⟨[], none, none⟩ ∧
    check_and_update_export_files ⟨[], none, none⟩ = .ok [] ∧
    check_and_update_export_files ⟨[], none, none⟩ ≠ .ok ["ExportWeapons.json!H1"] := by
  refine ⟨fun h => h, rfl, fun h => ?_⟩
  have e : check_and_update_export_files ⟨[], none, none⟩ =
      .ok ([] : List String) := rfl
  rw [e] at h
  exact absurd (Except.ok.inj h) (by simp)

/-- Helper for C7: when no file in either relevant listing carries any
entry's `_{hash}{extension}` suffix, the per-line loop returns every
(stripped) line. -/
theorem check_go_all_stale (root listing : List String) :
    ∀ lines : List String,
    (∀ line ∈ lines, ∃ fn hv, splitS '!' (trimS line) = [fn, hv]) →
    (∀ line ∈ lines, ∀ fn hv, splitS '!' (trimS line) = [fn, hv] →
      ∀ f, f ∈ root ∨ f ∈ listing →
        endsWithS f ("_" ++ hv ++ (splitext fn).2) = false) →
    check_go root (some listing) lines = .ok (lines.map trimS) := by
  intro lines
  induction lines with
  | nil => intro _ _; rfl
  | cons line rest ih =>
    intro hwf hmiss
    obtain ⟨fn, hv, hsp⟩ := hwf line (List.mem_cons_self _ _)
    have hrest := ih (fun l hl => hwf l (List.mem_cons_of_mem _ hl))
      (fun l hl => hmiss l (List.mem_cons_of_mem _ hl))
    have hanyR : (root.filter fun f => startsWithS f "ExportManifest_").any
        (fun f => endsWithS f ("_" ++ hv ++ (splitext fn).2)) = false := by
      rw [List.any_eq_false]
      intro f hf
      rw [hmiss line (List.mem_cons_self _ _) fn hv hsp f
        (Or.inl (List.mem_of_mem_filter hf))]
      simp
    have hanyL : (listing.filter fun f => startsWithS f (splitext fn).1).any
        (fun f => endsWithS f ("_" ++ hv ++ (splitext fn).2)) = false := by
      rw [List.any_eq_false]
      intro f hf
      rw [hmiss line (List.mem_cons_self _ _) fn hv hsp f
        (Or.inr (List.mem_of_mem_filter hf))]
      simp
    unfold check_go
    rw [hsp]
    by_cases hm : startsWithS fn "ExportManifest" = true
    · simp [hm, hanyR, hrest]
    · rw [Bool.not_eq_true] at hm
      simp [hm, hanyL, hrest]

/-- C7, amended: if the partition directory does not exist, the endpoints
index file inside it does not exist either and the Index Differ returns the
empty list (see the counterexample).  The bootstrap behaviour the claim
describes holds instead when the directory exists but holds no matching
hash-variant yet: every well-formed entry of the index is then returned as
stale. -/
theorem c7_amended_bootstrap_all_stale (root listing lines : List String)
    (hwf : ∀ line ∈ lines, ∃ fn hv, splitS '!' (trimS line) = [fn, hv])
    (hmiss : ∀ line ∈ lines, ∀ fn hv, splitS '!' (trimS line) = [fn, hv] →
      ∀ f, f ∈ root ∨ f ∈ listing →
        endsWithS f ("_" ++ hv ++ (splitext fn).2) = false) :
    check_and_update_export_files ⟨root, some listing, some lines⟩ =
      .ok (lines.map trimS) :=
  check_go_all_stale root listing lines hwf hmiss

theorem c7_amended_bootstrap_all_stale_witness :
    check_and_update_export_files
        ⟨["en"], some ["warframe_public_export_endpoints_en.txt"],
          some ["ExportWeapons.json!H1"]⟩ =
      .ok (["ExportWeapons.json!H1"].map trimS) :=
  c7_amended_bootstrap_all_stale ["en"]
    ["warframe_public_export_endpoints_en.txt"] ["ExportWeapons.json!H1"]
    (by
      intro line hl
      rw [List.mem_singleton] at hl
      subst hl
      exact ⟨"ExportWeapons.json", "H1", rfl⟩)
    (by
      intro line hl fn hv hsp f hf
      rw [List.mem_singleton] at hl
      subst hl
      have e : splitS '!' (trimS "ExportWeapons.json!H1") =
          ["ExportWeapons.json", "H1"] := rfl
      rw [e] at hsp
      obtain ⟨h1, h2⟩ : fn = "ExportWeapons.json" ∧ hv = "H1" := by
        injection hsp with ha hb
        injection hb with hb _
        exact ⟨ha.symm, hb.symm⟩
      subst h1
      subst h2
      rcases hf with hf | hf <;> rw [List.mem_singleton] at hf <;> subst hf <;> rfl)

/-! ## Claim C1 -/

/-- C1, counterexample: persistence is not all-or-nothing.  For the entry
`Foo.json!H2` over a partition holding `Foo_H1.json`,
`fetch_and_save_manifest` deletes `Foo_H1.json` *before* performing the
fetch; when the fetch then fails (`aiohttp.ClientError`), the previously
existing hash-variant file is already gone, contradicting "the previously
existing on-disk hash-variant file … remains untouched". -/
theorem c1_counterexample_fetch_failure_deletes_old_variant :
    fetch_and_save_manifest [("Foo_H1.json", "old")] "Foo.json!H2" .clientError = [] ∧
    ("Foo_H1.json", "old") ∉
      fetch_and_save_manifest [("Foo_H1.json", "old")] "Foo.json!H2" .clientError := by
  refine ⟨rfl, fun h => ?_⟩
  have e : fetch_and_save_manifest [("Foo_H1.json", "old")] "Foo.json!H2" .clientError =
      ([] : List (String × String)) := rfl
  rw [e] at h
  exact List.not_mem_nil _ h

/-- C1, amended: on a fetch or JSON-parse failure no file is created under
the new target name and every file *not* matching the
`{baseName}_*{extension}` pattern is untouched — but the previously
existing hash-variant files matching that pattern (other than the target
name itself) have already been deleted before the fetch, and a successful
write goes directly to the final target name (write-in-place, no staging
location). -/
theorem c1_amended_failure_no_new_file (folder : List (String × String))
    (item filename hashValue : String) (outcome : FetchOutcome)
    (hsplit : splitS '!' (trimS item) = [filename, hashValue])
    (hfail : outcome = .clientError ∨ outcome = .jsonError) :
    (∀ p ∈ fetch_and_save_manifest folder item outcome, p ∈ folder) ∧
    (∀ p ∈ folder,
      matchesGlob ((splitext filename).1 ++ "_") (splitext filename).2 p.1 = false →
      p ∈ fetch_and_save_manifest folder item outcome) ∧
    ((splitext filename).1 ++ "_" ++ hashValue ++ (splitext filename).2
        ∉ dirNames folder →
      (splitext filename).1 ++ "_" ++ hashValue ++ (splitext filename).2
        ∉ dirNames (fetch_and_save_manifest folder item outcome)) := by
  have hres : fetch_and_save_manifest folder item outcome =
      folder.filter fun p =>
        ! matchesGlob ((splitext filename).1 ++ "_") (splitext filename).2 p.1 ||
          decide (p.1 = (splitext filename).1 ++ "_" ++ hashValue ++
            (splitext filename).2) := by
    unfold fetch_and_save_manifest
    rw [hsplit]
    rcases hfail with h | h <;> subst h <;> rfl
  rw [hres]
  refine ⟨fun p hp => (List.mem_filter.mp hp).1,
    fun p hp hglob => List.mem_filter.mpr ⟨hp, by simp [hglob]⟩,
    fun hnot hmem => ?_⟩
  rcases (mem_dirNames_filter folder _ _).mp hmem with ⟨q, hq, _, hq₁⟩
  exact hnot (by
    rw [← hq₁]
    exact List.mem_map.mpr ⟨q, hq, rfl⟩)

theorem c1_amended_failure_no_new_file_witness :
    (∀ p ∈ fetch_and_save_manifest [("Bar.json", "b")] "Foo.json!H2" .clientError,
      p ∈ [("Bar.json", "b")]) ∧
    (∀ p ∈ [("Bar.json", "b")],
      matchesGlob ((splitext "Foo.json").1 ++ "_") (splitext "Foo.json").2 p.1 = false →
      p ∈ fetch_and_save_manifest [("Bar.json", "b")] "Foo.json!H2" .clientError) ∧
    ((splitext "Foo.json").1 ++ "_" ++ "H2" ++ (splitext "Foo.json").2
        ∉ dirNames [("Bar.json", "b")] →
      (splitext "Foo.json").1 ++ "_" ++ "H2" ++ (splitext "Foo.json").2
        ∉ dirNames (fetch_and_save_manifest [("Bar.json", "b")] "Foo.json!H2"
            .clientError)) :=
  c1_amended_failure_no_new_file [("Bar.json", "b")] "Foo.json!H2" "Foo.json" "H2"
    .clientError rfl (Or.inl rfl)

/-! ## Claim C5 -/

/-- C5: for a well-formed entry `filename!hash` and a duplicate-free
partition listing, a successful `fetch_and_save_manifest` leaves exactly
one file matching the glob `{baseName}_*{extension}` in the partition: the
new target `{baseName}_{hash}{extension}`.  Every other hash-variant was
deleted before the write. -/
theorem c5_at_most_one_hash_variant (folder : List (String × String))
    (item filename hashValue content : String)
    (hsplit : splitS '!' (trimS item) = [filename, hashValue])
    (hnodup : (dirNames folder).Nodup) :
    (dirNames (fetch_and_save_manifest folder item (.success content))).filter
        (fun n => matchesGlob ((splitext filename).1 ++ "_") (splitext filename).2 n) =
      [(splitext filename).1 ++ "_" ++ hashValue ++ (splitext filename).2] := by
  have hres : fetch_and_save_manifest folder item (.success content) =
      setFile (folder.filter fun p =>
        ! matchesGlob ((splitext filename).1 ++ "_") (splitext filename).2 p.1 ||
          decide (p.1 = (splitext filename).1 ++ "_" ++ hashValue ++
            (splitext filename).2))
        ((splitext filename).1 ++ "_" ++ hashValue ++ (splitext filename).2)
        content := by
    unfold fetch_and_save_manifest
    rw [hsplit]
  rw [hres]
  have hnd₁ := nodup_dirNames_filter folder
    (fun p => ! matchesGlob ((splitext filename).1 ++ "_") (splitext filename).2 p.1 ||
      decide (p.1 = (splitext filename).1 ++ "_" ++ hashValue ++ (splitext filename).2))
    hnodup
  have hnd₂ := nodup_dirNames_setFile _
    ((splitext filename).1 ++ "_" ++ hashValue ++ (splitext filename).2) content hnd₁
  apply nodup_all_eq_singleton (List.Nodup.filter _ hnd₂)
  · intro n hn
    rcases List.mem_filter.mp hn with ⟨hn, hg⟩
    rcases (mem_dirNames_setFile _ _ _ _).mp hn with hn₁ | rfl
    · rcases (mem_dirNames_filter _ _ _).mp hn₁ with ⟨q, _, hpq, rfl⟩
      simp only [hg, Bool.not_true, Bool.false_or, decide_eq_true_eq] at hpq
      exact hpq
    · rfl
  · refine List.mem_filter.mpr ⟨?_, matchesGlob_target _ _ _⟩
    exact (mem_dirNames_setFile _ _ _ _).mpr (Or.inr rfl)

theorem c5_at_most_one_hash_variant_witness :
    (dirNames (fetch_and_save_manifest [("Foo_H1.json", "a")] "Foo.json!H2"
        (.success "c"))).filter
        (fun n => matchesGlob ((splitext "Foo.json").1 ++ "_")
          (splitext "Foo.json").2 n) =
      [(splitext "Foo.json").1 ++ "_" ++ "H2" ++ (splitext "Foo.json").2] :=
  c5_at_most_one_hash_variant [("Foo_H1.json", "a")] "Foo.json!H2" "Foo.json" "H2" "c"
    rfl (by simp [dirNames])

/-! ## Claim C8 -/

/-- C8, counterexample: the skip prefix is
`file_name.rsplit("_", 1)[0]` — the save file name up to its *last*
underscore — which differs from `imageBaseName` whenever the content hash
itself contains an underscore (as real Warframe hashes such as
`00_JIrxycYjijIwKrUK7uqIWA` do).  With `imageBaseName = "Icon"`,
`contentHash = "A_B"` and destination filename `Icon_A_B.png`, the existing
file `Iconic_A_B.png` starts with the base name `Icon` and ends with
`_A_B.png`, so the claim says the fetch and write are skipped; the code
filters by the prefix `Icon_A`, finds nothing, fetches, and writes the
file. -/
theorem c8_counterexample_underscore_hash :
    download_and_save_png [("Iconic_A_B.png", "x")] ("Icon" ++ "_" ++ "A_B" ++ ".png")
        "A_B" (some "img") =
      [("Iconic_A_B.png", "x"), ("Icon" ++ "_" ++ "A_B" ++ ".png", "img")] ∧
    (startsWithS "Iconic_A_B.png" "Icon" = true ∧
      endsWithS "Iconic_A_B.png" ("_" ++ "A_B" ++ ".png") = true) :=
  ⟨rfl, rfl, rfl⟩

/-- C8, amended: the fetch and the write are skipped *if and only if* some
file in the destination directory starts with the save file name's prefix
up to its *last* underscore (`file_name.rsplit("_", 1)[0]`) and ends with
`_{contentHash}{ext}` — for any content hash, in particular the real
underscore-carrying hashes such as `00_JIrxycYjijIwKrUK7uqIWA`.  This
prefix equals `imageBaseName` exactly when the hash has no underscore; with
an underscore hash it is strictly longer, so a file matching the claim's
base-name rule need not trigger the skip (see the counterexample).  The
theorem characterises both branches with no hypotheses: when a file matches
the prefix-and-suffix rule the directory is returned untouched for every
transport outcome (skip); when none matches, the fetch proceeds and a
successful payload is written under the destination name — so a re-run on
an unchanged manifest, which finds the previously written
`{fileName}_{contentHash}{ext}`, performs zero fetches and leaves the
directory unchanged. -/
theorem c8_amended_skip_rule (folder : List (String × String))
    (saveName hashValue : String) (fetched : Option String) :
    download_and_save_png folder saveName hashValue fetched =
      if ∃ f ∈ dirNames folder,
          startsWithS f (rsplitBase (splitext saveName).1) = true ∧
          endsWithS f ("_" ++ hashValue ++ (splitext saveName).2) = true
      then folder
      else
        match fetched with
        | none => folder
        | some data => setFile folder saveName data := by
  unfold download_and_save_png
  by_cases hc : ∃ f ∈ dirNames folder,
      startsWithS f (rsplitBase (splitext saveName).1) = true ∧
      endsWithS f ("_" ++ hashValue ++ (splitext saveName).2) = true
  · rw [if_pos hc]
    obtain ⟨f, hf, hfs, hfe⟩ := hc
    have hany : ((dirNames folder).filter fun g =>
        startsWithS g (rsplitBase (splitext saveName).1)).any
        (fun g => endsWithS g ("_" ++ hashValue ++ (splitext saveName).2)) = true :=
      List.any_eq_true.mpr ⟨f, List.mem_filter.mpr ⟨hf, hfs⟩, hfe⟩
    simp only [hany, if_true]
  · rw [if_neg hc]
    have hany : ((dirNames folder).filter fun g =>
        startsWithS g (rsplitBase (splitext saveName).1)).any
        (fun g => endsWithS g ("_" ++ hashValue ++ (splitext saveName).2)) = false := by
      rw [List.any_eq_false]
      intro f hf hfe
      rcases List.mem_filter.mp hf with ⟨hmem, hfs⟩
      exact hc ⟨f, hmem, hfs, hfe⟩
    simp only [hany, Bool.false_eq_true, if_false]

theorem c8_amended_skip_rule_witness :
    download_and_save_png [("Icon_A_B.png", "x")] "Icon_A_B.png" "A_B" (some "img") =
      [("Icon_A_B.png", "x")] := by
  have h := c8_amended_skip_rule [("Icon_A_B.png", "x")] "Icon_A_B.png" "A_B"
    (some "img")
  rw [h, if_pos ⟨"Icon_A_B.png", by simp [dirNames], rfl, rfl⟩]

/-! ## Claim C4 -/

/-- C4, counterexample: a record whose `uniqueName` value is a JSON array is
*not* left unchanged — `unique_name in unique_name_to_texture` raises
`TypeError: unhashable type` on a list value, and nothing in
`update_export_files` catches it, so the whole linker pass aborts. -/
theorem c4_counterexample_unhashable_unique_name :
    update_item [("X", "a/b/Icon.png!H9")] (.obj [("uniqueName", .arr [])]) =
      .error "TypeError: unhashable type: list" ∧
    update_item [("X", "a/b/Icon.png!H9")] (.obj [("uniqueName", .arr [])]) ≠
      .ok (.obj [("uniqueName", .arr [])], false) := by
  refine ⟨rfl, fun h => ?_⟩
  have e : update_item [("X", "a/b/Icon.png!H9")]
      (Json.obj [("uniqueName", Json.arr [])]) =
      Except.error "TypeError: unhashable type: list" := rfl
  rw [e] at h
  exact Except.noConfusion h

/-- C4, amended: a record (JSON object) whose `uniqueName` is a *string*
equal to a manifest key gets its `imagePath` field set to the hash-stripped
path portion of the manifest's `textureLocation`; a record without a
`uniqueName` key, and a record whose string `uniqueName` is not a manifest
key, are left unchanged.  (A record whose `uniqueName` is an unhashable
value — a JSON array or object — instead raises a `TypeError` that aborts
the pass; see the counterexample.) -/
theorem c4_amended_linker_sets_image_path (idx : List (String × String))
    (fields : List (String × Json)) :
    (∀ u t p hsh, getJField fields "uniqueName" = some (.str u) →
      lookupIdx idx u = some t → splitS '!' t = [p, hsh] →
      update_item idx (.obj fields) =
        .ok (.obj (setJField fields "imagePath" (.str p)), true)) ∧
    (getJField fields "uniqueName" = none →
      update_item idx (.obj fields) = .ok (.obj fields, false)) ∧
    (∀ u, getJField fields "uniqueName" = some (.str u) → lookupIdx idx u = none →
      update_item idx (.obj fields) = .ok (.obj fields, false)) := by
  refine ⟨fun u t p hsh hu hl hsp => ?_, fun hu => ?_, fun u hu hl => ?_⟩
  · have hp : texture_path t = .ok p := by
      unfold texture_path
      rw [hsp]
      rfl
    simp only [update_item, hu, hl, hp]
  · simp only [update_item, hu]
  · simp only [update_item, hu, hl]

theorem c4_amended_linker_sets_image_path_witness :
    update_item [("X", "a/b/Icon.png!H9")] (.obj [("uniqueName", .str "X")]) =
      .ok (.obj (setJField [("uniqueName", Json.str "X")] "imagePath"
        (.str "a/b/Icon.png")), true) :=
  (c4_amended_linker_sets_image_path [("X", "a/b/Icon.png!H9")]
    [("uniqueName", Json.str "X")]).1 "X" "a/b/Icon.png!H9" "a/b/Icon.png" "H9"
    rfl rfl rfl

/-! ## Claim C9 -/

/-- Updating one key leaves lookups of a different key unchanged. -/
theorem getJField_setJField_ne (fields : List (String × Json)) (k k₁ : String)
    (v : Json) (h : k ≠ k₁) :
    getJField (setJField fields k v) k₁ = getJField fields k₁ := by
  induction fields with
  | nil => simp [setJField, getJField, h]
  | cons q rest ih =>
    rcases q with ⟨k₂, v₂⟩
    by_cases he : k₂ = k
    · subst he
      simp [setJField, getJField, h]
    · by_cases h2 : k₂ = k₁
      · subst h2
        simp [setJField, getJField, he]
      · simp [setJField, getJField, he, h2, ih]

/-- Setting the same key to the same value twice equals setting it once. -/
theorem setJField_setJField (fields : List (String × Json)) (k : String) (v : Json) :
    setJField (setJField fields k v) k v = setJField fields k v := by
  induction fields with
  | nil => simp [setJField]
  | cons q rest ih =>
    rcases q with ⟨k₂, v₂⟩
    by_cases he : k₂ = k
    · subst he
      simp [setJField]
    · simp [setJField, he, ih]

/-- The per-record update is idempotent on its own successful output. -/
theorem update_item_idem (idx : List (String × String)) (j j₁ : Json) (b : Bool)
    (h : update_item idx j = .ok (j₁, b)) : update_item idx j₁ = .ok (j₁, b) := by
  cases j with
  | obj fields =>
    rcases hu : getJField fields "uniqueName" with _ | v
    · have e : update_item idx (Json.obj fields) = .ok (Json.obj fields, false) := by
        simp only [update_item, hu]
      rw [e] at h
      injection h with h2
      injection h2 with h3 h4
      subst h3
      subst h4
      exact e
    · cases v with
      | str u =>
        rcases hl : lookupIdx idx u with _ | t
        · have e : update_item idx (Json.obj fields) = .ok (Json.obj fields, false) := by
            simp only [update_item, hu, hl]
          rw [e] at h
          injection h with h2
          injection h2 with h3 h4
          subst h3
          subst h4
          exact e
        · rcases ht : texture_path t with e₁ | p
          · have e : update_item idx (Json.obj fields) = .error e₁ := by
              simp only [update_item, hu, hl, ht]
            rw [e] at h
            exact Except.noConfusion h
          · have e : update_item idx (Json.obj fields) =
                .ok (.obj (setJField fields "imagePath" (.str p)), true) := by
              simp only [update_item, hu, hl, ht]
            rw [e] at h
            injection h with h2
            injection h2 with h3 h4
            subst h3
            subst h4
            have hu₁ : getJField (setJField fields "imagePath" (.str p)) "uniqueName" =
                some (.str u) := by
              rw [getJField_setJField_ne fields "imagePath" "uniqueName" _ (by decide)]
              exact hu
            simp only [update_item, hu₁, hl, ht, setJField_setJField]
      | arr elems =>
        have e : update_item idx (Json.obj fields) =
            .error "TypeError: unhashable type: list" := by
          simp only [update_item, hu]
        rw [e] at h
        exact Except.noConfusion h
      | obj fields₂ =>
        have e : update_item idx (Json.obj fields) =
            .error "TypeError: unhashable type: dict" := by
          simp only [update_item, hu]
        rw [e] at h
        exact Except.noConfusion h
      | null =>
        have e : update_item idx (Json.obj fields) = .ok (Json.obj fields, false) := by
          simp only [update_item, hu]
        rw [e] at h
        injection h with h2
        injection h2 with h3 h4
        subst h3
        subst h4
        exact e
      | bool bv =>
        have e : update_item idx (Json.obj fields) = .ok (Json.obj fields, false) := by
          simp only [update_item, hu]
        rw [e] at h
        injection h with h2
        injection h2 with h3 h4
        subst h3
        subst h4
        exact e
      | num nv =>
        have e : update_item idx (Json.obj fields) = .ok (Json.obj fields, false) := by
          simp only [update_item, hu]
        rw [e] at h
        injection h with h2
        injection h2 with h3 h4
        subst h3
        subst h4
        exact e
  | null =>
    rw [show update_item idx Json.null = .ok (Json.null, false) from rfl] at h
    injection h with h2
    injection h2 with h3 h4
    subst h3
    subst h4
    rfl
  | bool bv =>
    rw [show update_item idx (Json.bool bv) = .ok (Json.bool bv, false) from rfl] at h
    injection h with h2
    injection h2 with h3 h4
    subst h3
    subst h4
    rfl
  | num nv =>
    rw [show update_item idx (Json.num nv) = .ok (Json.num nv, false) from rfl] at h
    injection h with h2
    injection h2 with h3 h4
    subst h3
    subst h4
    rfl
  | str sv =>
    rw [show update_item idx (Json.str sv) = .ok (Json.str sv, false) from rfl] at h
    injection h with h2
    injection h2 with h3 h4
    subst h3
    subst h4
    rfl
  | arr elems =>
    rw [show update_item idx (Json.arr elems) = .ok (Json.arr elems, false) from rfl] at h
    injection h with h2
    injection h2 with h3 h4
    subst h3
    subst h4
    rfl

/-- The record-list update is idempotent on its own successful output. -/
theorem update_list_idem (idx : List (String × String)) :
    ∀ (items items₁ : List Json) (n : Nat),
    update_list idx items = .ok (items₁, n) →
    update_list idx items₁ = .ok (items₁, n) := by
  intro items
  induction items with
  | nil =>
    intro items₁ n h
    rw [show update_list idx [] = .ok ([], 0) from rfl] at h
    injection h with h2
    injection h2 with h3 h4
    subst h3
    subst h4
    rfl
  | cons j rest ih =>
    intro items₁ n h
    rcases hi : update_item idx j with e | jb
    · have e₂ : update_list idx (j :: rest) = .error e := by
        simp only [update_list, hi]
      rw [e₂] at h
      exact Except.noConfusion h
    · rcases jb with ⟨j₁, b⟩
      rcases hr : update_list idx rest with e | rn
      · have e₂ : update_list idx (j :: rest) = .error e := by
          simp only [update_list, hi, hr]
        rw [e₂] at h
        exact Except.noConfusion h
      · rcases rn with ⟨rest₁, m⟩
        have e₂ : update_list idx (j :: rest) =
            .ok (j₁ :: rest₁, m + if b then 1 else 0) := by
          simp only [update_list, hi, hr]
        rw [e₂] at h
        injection h with h2
        injection h2 with h3 h4
        subst h3
        subst h4
        have hi₁ := update_item_idem idx j j₁ b hi
        have hr₁ := ih rest₁ m hr
        simp only [update_list, hi₁, hr₁]

/-- The dict-of-lists update is idempotent on its own successful output. -/
theorem update_fields_idem (idx : List (String × String)) :
    ∀ (fields fields₁ : List (String × Json)) (n : Nat),
    update_fields idx fields = .ok (fields₁, n) →
    update_fields idx fields₁ = .ok (fields₁, n) := by
  intro fields
  induction fields with
  | nil =>
    intro fields₁ n h
    rw [show update_fields idx [] = .ok ([], 0) from rfl] at h
    injection h with h2
    injection h2 with h3 h4
    subst h3
    subst h4
    rfl
  | cons q rest ih =>
    intro fields₁ n h
    rcases q with ⟨k, v⟩
    cases v with
    | arr items =>
      rcases hi : update_list idx items with e | im
      · have e₂ : update_fields idx ((k, Json.arr items) :: rest) = .error e := by
          simp only [update_fields, hi]
        rw [e₂] at h
        exact Except.noConfusion h
      · rcases im with ⟨items₁, m⟩
        rcases hr : update_fields idx rest with e | rm
        · have e₂ : update_fields idx ((k, Json.arr items) :: rest) = .error e := by
            simp only [update_fields, hi, hr]
          rw [e₂] at h
          exact Except.noConfusion h
        · rcases rm with ⟨rest₁, m₂⟩
          have e₂ : update_fields idx ((k, Json.arr items) :: rest) =
              .ok ((k, Json.arr items₁) :: rest₁, m + m₂) := by
            simp only [update_fields, hi, hr]
          rw [e₂] at h
          injection h with h2
          injection h2 with h3 h4
          subst h3
          subst h4
          have hi₁ := update_list_idem idx items items₁ m hi
          have hr₁ := ih rest₁ m₂ hr
          simp only [update_fields, hi₁, hr₁]
    | null =>
      rcases hr : update_fields idx rest with e | rm
      · have e₂ : update_fields idx ((k, Json.null) :: rest) = .error e := by
          simp only [update_fields, hr]
        rw [e₂] at h
        exact Except.noConfusion h
      · rcases rm with ⟨rest₁, m₂⟩
        have e₂ : update_fields idx ((k, Json.null) :: rest) =
            .ok ((k, Json.null) :: rest₁, m₂) := by
          simp only [update_fields, hr]
        rw [e₂] at h
        injection h with h2
        injection h2 with h3 h4
        subst h3
        subst h4
        have hr₁ := ih rest₁ m₂ hr
        simp only [update_fields, hr₁]
    | bool bv =>
      rcases hr : update_fields idx rest with e | rm
      · have e₂ : update_fields idx ((k, Json.bool bv) :: rest) = .error e := by
          simp only [update_fields, hr]
        rw [e₂] at h
        exact Except.noConfusion h
      · rcases rm with ⟨rest₁, m₂⟩
        have e₂ : update_fields idx ((k, Json.bool bv) :: rest) =
            .ok ((k, Json.bool bv) :: rest₁, m₂) := by
          simp only [update_fields, hr]
        rw [e₂] at h
        injection h with h2
        injection h2 with h3 h4
        subst h3
        subst h4
        have hr₁ := ih rest₁ m₂ hr
        simp only [update_fields, hr₁]
    | num nv =>
      rcases hr : update_fields idx rest with e | rm
      · have e₂ : update_fields idx ((k, Json.num nv) :: rest) = .error e := by
          simp only [update_fields, hr]
        rw [e₂] at h
        exact Except.noConfusion h
      · rcases rm with ⟨rest₁, m₂⟩
        have e₂ : update_fields idx ((k, Json.num nv) :: rest) =
            .ok ((k, Json.num nv) :: rest₁, m₂) := by
          simp only [update_fields, hr]
        rw [e₂] at h
        injection h with h2
        injection h2 with h3 h4
        subst h3
        subst h4
        have hr₁ := ih rest₁ m₂ hr
        simp only [update_fields, hr₁]
    | str sv =>
      rcases hr : update_fields idx rest with e | rm
      · have e₂ : update_fields idx ((k, Json.str sv) :: rest) = .error e := by
          simp only [update_fields, hr]
        rw [e₂] at h
        exact Except.noConfusion h
      · rcases rm with ⟨rest₁, m₂⟩
        have e₂ : update_fields idx ((k, Json.str sv) :: rest) =
            .ok ((k, Json.str sv) :: rest₁, m₂) := by
          simp only [update_fields, hr]
        rw [e₂] at h
        injection h with h2
        injection h2 with h3 h4
        subst h3
        subst h4
        have hr₁ := ih rest₁ m₂ hr
        simp only [update_fields, hr₁]
    | obj fs =>
      rcases hr : update_fields idx rest with e | rm
      · have e₂ : update_fields idx ((k, Json.obj fs) :: rest) = .error e := by
          simp only [update_fields, hr]
        rw [e₂] at h
        exact Except.noConfusion h
      · rcases rm with ⟨rest₁, m₂⟩
        have e₂ : update_fields idx ((k, Json.obj fs) :: rest) =
            .ok ((k, Json.obj fs) :: rest₁, m₂) := by
          simp only [update_fields, hr]
        rw [e₂] at h
        injection h with h2
        injection h2 with h3 h4
        subst h3
        subst h4
        have hr₁ := ih rest₁ m₂ hr
        simp only [update_fields, hr₁]

/-- C9: the Cross-Reference Linker pass is idempotent.  If one run of the
per-document update succeeds with output `d₁`, running it again on `d₁`
reproduces `d₁` (with the same update count, so the re-serialized file —
`json.dumps` being a deterministic function of the document value — is
byte-identical). -/
theorem c9_linker_idempotent (idx : List (String × String)) (d d₁ : Json) (n : Nat)
    (h : update_export_data idx d = .ok (d₁, n)) :
    update_export_data idx d₁ = .ok (d₁, n) := by
  cases d with
  | obj fields =>
    rcases hf : update_fields idx fields with e | fm
    · have e₂ : update_export_data idx (Json.obj fields) = .error e := by
        simp only [update_export_data, hf]
      rw [e₂] at h
      exact Except.noConfusion h
    · rcases fm with ⟨fields₁, m⟩
      have e₂ : update_export_data idx (Json.obj fields) =
          .ok (Json.obj fields₁, m) := by
        simp only [update_export_data, hf]
      rw [e₂] at h
      injection h with h2
      injection h2 with h3 h4
      subst h3
      subst h4
      have hf₁ := update_fields_idem idx fields fields₁ m hf
      simp only [update_export_data, hf₁]
  | arr items =>
    rcases hl : update_list idx items with e | im
    · have e₂ : update_export_data idx (Json.arr items) = .error e := by
        simp only [update_export_data, hl]
      rw [e₂] at h
      exact Except.noConfusion h
    · rcases im with ⟨items₁, m⟩
      have e₂ : update_export_data idx (Json.arr items) =
          .ok (Json.arr items₁, m) := by
        simp only [update_export_data, hl]
      rw [e₂] at h
      injection h with h2
      injection h2 with h3 h4
      subst h3
      subst h4
      have hl₁ := update_list_idem idx items items₁ m hl
      simp only [update_export_data, hl₁]
  | null =>
    rw [show update_export_data idx Json.null = .ok (Json.null, 0) from rfl] at h
    injection h with h2
    injection h2 with h3 h4
    subst h3
    subst h4
    rfl
  | bool bv =>
    rw [show update_export_data idx (Json.bool bv) = .ok (Json.bool bv, 0) from rfl] at h
    injection h with h2
    injection h2 with h3 h4
    subst h3
    subst h4
    rfl
  | num nv =>
    rw [show update_export_data idx (Json.num nv) = .ok (Json.num nv, 0) from rfl] at h
    injection h with h2
    injection h2 with h3 h4
    subst h3
    subst h4
    rfl
  | str sv =>
    rw [show update_export_data idx (Json.str sv) = .ok (Json.str sv, 0) from rfl] at h
    injection h with h2
    injection h2 with h3 h4
    subst h3
    subst h4
    rfl

theorem c9_linker_idempotent_witness :
    update_export_data [("X", "a/b/Icon.png!H9")]
        (.arr [.obj [("uniqueName", .str "X"), ("imagePath", .str "a/b/Icon.png")]]) =
      .ok (.arr [.obj [("uniqueName", .str "X"),
        ("imagePath", .str "a/b/Icon.png")]], 1) :=
  c9_linker_idempotent [("X", "a/b/Icon.png!H9")]
    (.arr [.obj [("uniqueName", .str "X")]])
    (.arr [.obj [("uniqueName", .str "X"), ("imagePath", .str "a/b/Icon.png")]]) 1 rfl

/-! ## Claim C6 -/

/-- A manifest record missing the `uniqueName` or the `textureLocation`
field. -/
def recordMissingField (j : Json) : Prop :=
  ∃ fields, j = Json.obj fields ∧
    (getJField fields "uniqueName" = none ∨ getJField fields "textureLocation" = none)

/-- Helper for C6: a record with a missing field makes the whole record loop
of `process_manifest_and_download_pngs` return an error. -/
theorem process_go_missing_aborts (baseFolder : String) :
    ∀ items : List Json, (∃ j ∈ items, recordMissingField j) →
    ∃ e, process_go baseFolder items = .error e := by
  intro items
  induction items with
  | nil =>
    rintro ⟨j, hj, _⟩
    cases hj
  | cons item rest ih =>
    rintro ⟨j, hj, hmiss⟩
    rcases List.mem_cons.mp hj with rfl | hj
    · obtain ⟨fields, rfl, hor⟩ := hmiss
      rcases hu : getJField fields "uniqueName" with _ | uv
      · exact ⟨"KeyError: uniqueName", by simp only [process_go, hu]⟩
      · rcases hor with hnone | ht
        · rw [hu] at hnone
          exact Option.noConfusion hnone
        · cases uv with
          | str u => exact ⟨"KeyError: textureLocation", by simp only [process_go, hu, ht]⟩
          | null => exact ⟨"AttributeError: lstrip", by simp only [process_go, hu]⟩
          | bool bv => exact ⟨"AttributeError: lstrip", by simp only [process_go, hu]⟩
          | num nv => exact ⟨"AttributeError: lstrip", by simp only [process_go, hu]⟩
          | arr elems => exact ⟨"AttributeError: lstrip", by simp only [process_go, hu]⟩
          | obj fs => exact ⟨"AttributeError: lstrip", by simp only [process_go, hu]⟩
    · obtain ⟨e, he⟩ := ih ⟨j, hj, hmiss⟩
      cases item with
      | obj fields =>
        rcases hu : getJField fields "uniqueName" with _ | uv
        · exact ⟨"KeyError: uniqueName", by simp only [process_go, hu]⟩
        · cases uv with
          | str u =>
            rcases ht : getJField fields "textureLocation" with _ | tv
            · exact ⟨"KeyError: textureLocation", by simp only [process_go, hu, ht]⟩
            · cases tv with
              | str raw =>
                rcases hs : splitS '!' (lstripSlash raw) with _ | ⟨a, _ | ⟨b, _ | ⟨c, tl⟩⟩⟩
                · exact ⟨"ValueError: split", by simp only [process_go, hu, ht, hs]⟩
                · exact ⟨"ValueError: split", by simp only [process_go, hu, ht, hs]⟩
                · exact ⟨e, by simp only [process_go, hu, ht, hs, he]⟩
                · exact ⟨"ValueError: split", by simp only [process_go, hu, ht, hs]⟩
              | null => exact ⟨"AttributeError: lstrip", by simp only [process_go, hu, ht]⟩
              | bool bv => exact ⟨"AttributeError: lstrip", by simp only [process_go, hu, ht]⟩
              | num nv => exact ⟨"AttributeError: lstrip", by simp only [process_go, hu, ht]⟩
              | arr elems => exact ⟨"AttributeError: lstrip", by simp only [process_go, hu, ht]⟩
              | obj fs => exact ⟨"AttributeError: lstrip", by simp only [process_go, hu, ht]⟩
          | null => exact ⟨"AttributeError: lstrip", by simp only [process_go, hu]⟩
          | bool bv => exact ⟨"AttributeError: lstrip", by simp only [process_go, hu]⟩
          | num nv => exact ⟨"AttributeError: lstrip", by simp only [process_go, hu]⟩
          | arr elems => exact ⟨"AttributeError: lstrip", by simp only [process_go, hu]⟩
          | obj fs => exact ⟨"AttributeError: lstrip", by simp only [process_go, hu]⟩
      | null => exact ⟨"TypeError: item is not a dict", by simp only [process_go]⟩
      | bool bv => exact ⟨"TypeError: item is not a dict", by simp only [process_go]⟩
      | num nv => exact ⟨"TypeError: item is not a dict", by simp only [process_go]⟩
      | str sv => exact ⟨"TypeError: item is not a dict", by simp only [process_go]⟩
      | arr elems => exact ⟨"TypeError: item is not a dict", by simp only [process_go]⟩

/-- C6, counterexample: a record missing `uniqueName` does *not* cause only
that record to be skipped — `item["uniqueName"]` raises a `KeyError` that
the surrounding handler logs and re-raises, so the whole pass aborts and no
result is produced for the remaining records.  The second conjunct refutes
the claim, whose prediction here is the download plan of the first and
third records. -/
theorem c6_counterexample_missing_field_aborts_pass :
    process_manifest_and_download_pngs
        (.obj [("Manifest", .arr
          [.obj [("uniqueName", .str "/Lotus/a/b"),
            ("textureLocation", .str "x/Icon.png!H9")],
           .obj [("textureLocation", .str "x/y.png!H8")],
           .obj [("uniqueName", .str "/Lotus/a/c"),
            ("textureLocation", .str "x/z.png!H7")]])]) "data/images" =
      .error "KeyError: uniqueName" ∧
    process_manifest_and_download_pngs
        (.obj [("Manifest", .arr
          [.obj [("uniqueName", .str "/Lotus/a/b"),
            ("textureLocation", .str "x/Icon.png!H9")],
           .obj [("textureLocation", .str "x/y.png!H8")],
           .obj [("uniqueName", .str "/Lotus/a/c"),
            ("textureLocation", .str "x/z.png!H7")]])]) "data/images" ≠
      .ok [("http://content.warframe.com/PublicExport/x/Icon.png!H9",
             "data/images/Lotus/a/Icon_H9.png"),
           ("http://content.warframe.com/PublicExport/x/z.png!H7",
             "data/images/Lotus/a/z_H7.png")] := by
  refine ⟨rfl, fun h => ?_⟩
  have e : process_manifest_and_download_pngs
      (.obj [("Manifest", .arr
        [.obj [("uniqueName", .str "/Lotus/a/b"),
          ("textureLocation", .str "x/Icon.png!H9")],
         .obj [("textureLocation", .str "x/y.png!H8")],
         .obj [("uniqueName", .str "/Lotus/a/c"),
          ("textureLocation", .str "x/z.png!H7")]])]) "data/images" =
      Except.error "KeyError: uniqueName" := rfl
  rw [e] at h
  exact Except.noConfusion h

/-- C6, amended: a manifest record missing the `uniqueName` or the
`textureLocation` field causes the *whole* pass to abort with an exception
(the `KeyError` is logged and re-raised); no download list is produced for
the remaining records. -/
theorem c6_amended_missing_field_aborts (manifest : Json)
    (mfields : List (String × Json)) (items : List Json) (baseFolder : String)
    (hm : manifest = .obj mfields)
    (hitems : getJField mfields "Manifest" = some (.arr items))
    (hbad : ∃ j ∈ items, recordMissingField j) :
    ∃ e, process_manifest_and_download_pngs manifest baseFolder = .error e := by
  subst hm
  obtain ⟨e, he⟩ := process_go_missing_aborts baseFolder items hbad
  exact ⟨e, by simp only [process_manifest_and_download_pngs, hitems, he]⟩

theorem c6_amended_missing_field_aborts_witness :
    ∃ e, process_manifest_and_download_pngs
        (.obj [("Manifest", .arr [.obj [("textureLocation", .str "x/y.png!H8")]])])
        "data/images" = .error e :=
  c6_amended_missing_field_aborts
    (.obj [("Manifest", .arr [.obj [("textureLocation", .str "x/y.png!H8")]])])
    [("Manifest", Json.arr [.obj [("textureLocation", Json.str "x/y.png!H8")]])]
    [.obj [("textureLocation", Json.str "x/y.png!H8")]] "data/images" rfl rfl
    ⟨.obj [("textureLocation", Json.str "x/y.png!H8")], by simp,
      [("textureLocation", Json.str "x/y.png!H8")], rfl, Or.inl rfl⟩

end WarframePublicExport
